import Mathlib

/-!
Verification development for the QCPortal client's identity-keyed fetch cache,
a shallow embedding of `PortalClient._get_with_cache` (src/client.py, lines
183-241) together with the external collaborators it uses.

The method itself is translated line by line from src/client.py.  The helpers
`make_str` / `make_list` (from qcportal's `.utils` module) and the cache
store's `get` / `put` (from `.cache`, class `PortalCache`) are not part of the
provided sources; they are modelled from the spec (sections 3, 4.1 and 6) and
are marked as such in their doc comments.

State and side effects are made explicit: the embedded call returns, besides
the Python return value (or raised exception, as an `Except`), the final
contents of the key-value store, the list of arguments passed to the store's
`get` and `put`, the list of payloads passed to the injected remote-fetch
function, and the final value of the caller's `include` list (which the
source may mutate in place).
-/

/-- Raw identity as it arrives at a call site: "a given logical id might
arrive as an integer or a string depending on call site" (spec section 3). -/
inductive RawId where
  | num (n : Nat)
  | str (s : String)
deriving DecidableEq

/-- Modelled from the spec: canonical string form of a single identity
(spec section 3, "Identity": string-normalized form of a numeric or string
id), as produced by Python's `str()` inside `make_str` (qcportal `.utils`,
not under src/). -/
def normId : RawId → String
  | .num n => toString n
  | .str s => s

/-- Python argument `id` of `_get_with_cache`: "either a single identity or
an ordered sequence of identities" (spec section 4.1).  The source
distinguishes the two shapes with `isinstance(id, list)`. -/
inductive PyId where
  | scalar (r : RawId)
  | list (l : List RawId)
deriving DecidableEq

/-- Python value `str_id = make_str(id)`: a single string or a list of
strings, mirroring the shape of the input. -/
inductive PyStr where
  | scalar (s : String)
  | list (l : List String)
deriving DecidableEq

/-- Modelled from the spec: `make_str` from qcportal `.utils` (not under
src/); normalizes the requested identities "to canonical string form,
preserving input order and duplicates" (spec section 4.1, step 1), keeping
the single-vs-sequence shape. -/
def make_str : PyId → PyStr
  | .scalar r => .scalar (normId r)
  | .list l => .list (l.map normId)

/-- Modelled from the spec: `make_list` from qcportal `.utils` (not under
src/); wraps a single identity into a one-element list and copies a list
unchanged, so `ids = make_list(str_id)` is the ordered, duplicate-preserving
list of normalized identities. -/
def make_list : PyStr → List String
  | .scalar s => [s]
  | .list l => l

/-- Normalized identity list of the request: `make_list(make_str(id))`. -/
def strList (pid : PyId) : List String :=
  make_list (make_str pid)

/-- Python dict keyed by normalized identity strings, in insertion order. -/
abbrev Dict (V : Type) := List (String × V)

/-- Lookup in a Python dict (first matching key). -/
def dictFind {V : Type} : Dict V → String → Option V
  | [], _ => none
  | (k, v) :: d, j => if k = j then some v else dictFind d j

/-- Key list of a Python dict, in insertion order. -/
def dictKeys {V : Type} (d : Dict V) : List String :=
  d.map (fun p => p.1)

/-- Python dict item assignment `d[k] = v`: overwrite in place if the key is
present, append otherwise. -/
def dictInsert {V : Type} : Dict V → String → V → Dict V
  | [], k, v => [(k, v)]
  | (k2, v2) :: d, k, v =>
    if k2 = k then (k2, v) :: d else (k2, v2) :: dictInsert d k v

/-- Python `r.update(c)`: insert every entry of `c` into `r`, in order,
overwriting entries of `r` with the same key. -/
def dictUpdate {V : Type} (r c : Dict V) : Dict V :=
  c.foldl (fun acc p => dictInsert acc p.1 p.2) r

/-- Sequential lookup of every identity of a list in a dict, failing if any
is absent; this is the list comprehension `[cached[i] for i in str_id]` in
src/client.py line 202, where `cached[i]` raises on a missing key. -/
def lookupAll {V : Type} (d : Dict V) : List String → Option (List V)
  | [] => some []
  | i :: rest =>
    match dictFind d i, lookupAll d rest with
    | some v, some vs => some (v :: vs)
    | _, _ => none

/-- Key-value store behind `self._cache`, keyed by (entity_type, identity);
the backing `PortalCache` class is not under src/ and its observable
contract is modelled from the spec (section 6). -/
abbrev KVStore (V : Type) := List ((String × String) × V)

/-- Lookup of one (entity_type, identity) pair in the store. -/
def storeFind {V : Type} : KVStore V → String → String → Option V
  | [], _, _ => none
  | ((et2, k2), v2) :: s, et, j =>
    if et2 = et ∧ k2 = j then some v2 else storeFind s et j

/-- Store insertion for one (entity_type, identity) key: overwrite in place
if present, append otherwise. -/
def storeInsert {V : Type} : KVStore V → String → String → V → KVStore V
  | [], et, k, v => [((et, k), v)]
  | ((et2, k2), v2) :: s, et, k, v =>
    if et2 = et ∧ k2 = k then ((et2, k2), v) :: s
    else ((et2, k2), v2) :: storeInsert s et k v

/-- Modelled from the spec: `PortalCache.get(ids, entity_type)` (class not
under src/): "returns only entries present; silent on misses" (spec
section 6), as a mapping from normalized identity to the stored entity,
built in the order the identities are requested. -/
def storeGet {V : Type} (s : KVStore V) (ids : List String) (et : String) : Dict V :=
  ids.foldl
    (fun d i =>
      match storeFind s et i with
      | some v => dictInsert d i v
      | none => d)
    []

/-- Modelled from the spec: `PortalCache.put(mapping, entity_type)` (class
not under src/): inserts every entry of the mapping into the store under the
given entity kind (spec section 6). -/
def storePut {V : Type} (s : KVStore V) (m : Dict V) (et : String) : KVStore V :=
  m.foldl (fun acc p => storeInsert acc et p.1 p.2) s

/-- Payload handed to the injected remote-fetch function: `data.ids` always,
`meta.includes` only when an `include` filter is active (src/client.py lines
207-218). -/
structure Payload where
  ids : List String
  includes : Option (List String)
deriving DecidableEq

/-- Injected remote-fetch function `func`: takes the payload and either
raises (an opaque error `E`, passed through by the cache layer) or returns
the pair `(results, to_cache)` of src/client.py line 220. -/
abbrev FetchFn (V E : Type) := Payload → Except E (Dict V × Dict V)

/-- Errors the embedded call can raise: the synthesized missing-identity
`KeyError` of src/client.py line 233 (carrying the set of missing
identities, the spec's `NotFoundError`), a propagated remote-fetch error,
and the (unreachable) `KeyError` of a plain dict subscript on the
all-cached early path. -/
inductive CallError (E : Type) where
  | notFound (missing : List String)
  | fetchError (e : E)
  | lookupFailure
deriving DecidableEq

/-- Return value of the call: a single entity-or-absent for a scalar input,
an ordered list of entity-or-absent for a list input (`None` is the absent
marker). -/
inductive PyOut (V : Type) where
  | scalar (v : Option V)
  | list (vs : List (Option V))
deriving DecidableEq

/-- Observable outcome of one `_get_with_cache` call: the returned value or
raised error, the final store contents, the arguments of every `cache.get`,
remote fetch, and `cache.put` invocation (in order), and the final value of
the caller's `include` argument. -/
structure CallResult (V E : Type) where
  result : Except (CallError E) (PyOut V)
  store : KVStore V
  getCalls : List (List String)
  fetchCalls : List Payload
  putCalls : List (Dict V)
  includeOut : Option (List String)

/-- Value of `cached` (src/client.py lines 191-194): the store is consulted
only when no `include` filter is supplied; otherwise `cached = {}`. -/
def cachedOf {V : Type} (s : KVStore V) (strL : List String) (et : String)
    (incl : Option (List String)) : Dict V :=
  match incl with
  | none => storeGet s strL et
  | some _ => []

/-- Trace of `cache.get` invocations for one call: one call with the full
normalized id list when no filter is supplied, none otherwise. -/
def getCallsOf (strL : List String) (incl : Option (List String)) : List (List String) :=
  match incl with
  | none => [strL]
  | some _ => []

/-- Value of `ids` after the removal loop `for i in cached: ids.remove(i)`
(src/client.py lines 196-197): one occurrence of each cached key is removed
from the normalized id list.  (`list.remove` deletes the first occurrence;
the keys of `cached` are distinct, so the fold order does not matter.) -/
def idsAfter (strL keep : List String) : List String :=
  keep.foldl (fun l k => l.erase k) strL

/-- In-place adjustment of the caller's `include` list on the fetch path
(src/client.py lines 212-213): `"ids"` is appended when absent. -/
def inclAdj : Option (List String) → Option (List String)
  | none => none
  | some inc => if "ids" ∈ inc then some inc else some (inc ++ ["ids"])

/-- Payload built for the remote fetch (src/client.py lines 207-218). -/
def payloadOf {V : Type} (strL : List String) (cached : Dict V)
    (incl : Option (List String)) : Payload :=
  ⟨idsAfter strL (dictKeys cached), inclAdj incl⟩

/-- Early return when every occurrence in `ids` was removed by the cache
loop (src/client.py lines 199-204): the cached values themselves are
returned, via plain dict subscripts, shaped by `isinstance(id, list)`. -/
def earlyResult {V E : Type} (s : KVStore V) (cached : Dict V) (pid : PyId)
    (strL : List String) (gc : List (List String)) (incl : Option (List String)) :
    CallResult V E :=
  match pid with
  | .list _ =>
    match lookupAll cached strL with
    | some vs => ⟨.ok (.list (vs.map some)), s, gc, [], [], incl⟩
    | none => ⟨.error .lookupFailure, s, gc, [], [], incl⟩
  | .scalar r =>
    match dictFind cached (normId r) with
    | some v => ⟨.ok (.scalar (some v)), s, gc, [], [], incl⟩
    | none => ⟨.error .lookupFailure, s, gc, [], [], incl⟩

/-- Continuation after the single remote fetch (src/client.py lines
220-241): cache the `to_cache` part when unfiltered, merge cached entries
over the fetched results, synthesize the missing-identity error, and order
the output by the original normalized id list. -/
def afterFetch {V E : Type} (s : KVStore V) (cached : Dict V) (pid : PyId)
    (strL : List String) (gc : List (List String)) (incl : Option (List String))
    (payload : Payload) (fr : Except E (Dict V × Dict V)) (missing_ok : Bool)
    (et : String) : CallResult V E :=
  match fr with
  | .error e => ⟨.error (.fetchError e), s, gc, [payload], [], inclAdj incl⟩
  | .ok (results, to_cache) =>
    let s2 := match incl with
      | none => storePut s to_cache et
      | some _ => s
    let pc := match incl with
      | none => [to_cache]
      | some _ => []
    let results2 := dictUpdate results cached
    let missing := (strL.filter (fun i => (dictFind results2 i).isNone)).dedup
    if missing ≠ [] ∧ missing_ok = false then
      ⟨.error (.notFound missing), s2, gc, [payload], pc, inclAdj incl⟩
    else
      let ordered : PyOut V := match pid with
        | .list _ => .list (strL.map (fun i => dictFind results2 i))
        | .scalar r => .scalar (dictFind results2 (normId r))
      ⟨.ok ordered, s2, gc, [payload], pc, inclAdj incl⟩

/-- Embedding of `PortalClient._get_with_cache` (src/client.py lines
183-241), with the store threaded explicitly and every collaborator
invocation recorded in the trace fields of the result. -/
def get_with_cache {V E : Type} (s : KVStore V) (func : FetchFn V E) (pid : PyId)
    (missing_ok : Bool) (et : String) (incl : Option (List String)) : CallResult V E :=
  if idsAfter (strList pid) (dictKeys (cachedOf s (strList pid) et incl)) = [] then
    earlyResult s (cachedOf s (strList pid) et incl) pid (strList pid)
      (getCallsOf (strList pid) incl) incl
  else
    afterFetch s (cachedOf s (strList pid) et incl) pid (strList pid)
      (getCallsOf (strList pid) incl) incl
      (payloadOf (strList pid) (cachedOf s (strList pid) et incl) incl)
      (func (payloadOf (strList pid) (cachedOf s (strList pid) et incl) incl))
      missing_ok et

/-! ### Association-list (Python dict) lemmas -/

theorem dictKeys_cons {V : Type} (k : String) (v : V) (d : Dict V) :
    dictKeys ((k, v) :: d) = k :: dictKeys d := rfl

theorem dictFind_isSome_iff_mem_keys {V : Type} (d : Dict V) (j : String) :
    (dictFind d j).isSome ↔ j ∈ dictKeys d := by
  induction d with
  | nil => simp [dictFind, dictKeys]
  | cons p d ih =>
    obtain ⟨k, v⟩ := p
    by_cases h : k = j
    · subst h
      simp [dictFind, dictKeys]
    · have h2 : ¬ j = k := fun hh => h hh.symm
      simp [dictFind, dictKeys, h, h2, ih]

theorem dictFind_insert {V : Type} (d : Dict V) (k : String) (v : V) (j : String) :
    dictFind (dictInsert d k v) j = if j = k then some v else dictFind d j := by
  induction d with
  | nil =>
    by_cases h : j = k
    · simp [dictInsert, dictFind, h]
    · have h2 : ¬ k = j := fun hh => h hh.symm
      simp [dictInsert, dictFind, h, h2]
  | cons p d ih =>
    obtain ⟨k2, v2⟩ := p
    by_cases h2 : k2 = k
    · subst h2
      by_cases h : j = k2
      · simp [dictInsert, dictFind, h]
      · have h3 : ¬ k2 = j := fun hh => h hh.symm
        simp [dictInsert, dictFind, h, h3]
    · by_cases h : k2 = j
      · subst h
        simp [dictInsert, dictFind, h2]
      · simp [dictInsert, dictFind, h2, h, ih]

theorem dictKeys_insert {V : Type} (d : Dict V) (k : String) (v : V) :
    dictKeys (dictInsert d k v) =
      if (dictFind d k).isSome then dictKeys d else dictKeys d ++ [k] := by
  induction d with
  | nil => simp [dictInsert, dictKeys, dictFind]
  | cons p d ih =>
    obtain ⟨k2, v2⟩ := p
    by_cases h2 : k2 = k
    · subst h2
      have h1 : dictInsert ((k2, v2) :: d) k2 v = (k2, v) :: d := by
        simp [dictInsert]
      have hf : dictFind ((k2, v2) :: d) k2 = some v2 := by
        simp [dictFind]
      rw [h1, hf]
      simp [dictKeys_cons]
    · have hins : dictInsert ((k2, v2) :: d) k v = (k2, v2) :: dictInsert d k v := by
        simp [dictInsert, h2]
      have hfind : dictFind ((k2, v2) :: d) k = dictFind d k := by
        simp [dictFind, h2]
      rw [hins, hfind]
      simp only [dictKeys_cons]
      rw [ih]
      by_cases hs : (dictFind d k).isSome
      · simp [hs]
      · simp [hs]

theorem dictKeys_insert_nodup {V : Type} (d : Dict V) (k : String) (v : V)
    (h : (dictKeys d).Nodup) : (dictKeys (dictInsert d k v)).Nodup := by
  rw [dictKeys_insert]
  by_cases hs : (dictFind d k).isSome
  · simpa [hs]
  · have hk : k ∉ dictKeys d := fun hm =>
      hs ((dictFind_isSome_iff_mem_keys d k).mpr hm)
    simp only [hs, if_false]
    simpa [List.nodup_append] using ⟨h, hk⟩

theorem dictFind_update {V : Type} (r c : Dict V) (j : String)
    (hc : (dictKeys c).Nodup) :
    dictFind (dictUpdate r c) j =
      match dictFind c j with
      | some v => some v
      | none => dictFind r j := by
  induction c generalizing r with
  | nil => simp [dictUpdate, dictFind]
  | cons p c ih =>
    obtain ⟨k, v⟩ := p
    have hc2 : (k :: dictKeys c).Nodup := by
      rw [← dictKeys_cons k v c]
      exact hc
    have htail : (dictKeys c).Nodup := hc2.of_cons
    have hknot : k ∉ dictKeys c := (List.nodup_cons.mp hc2).1
    have hstep : dictUpdate r ((k, v) :: c) = dictUpdate (dictInsert r k v) c := by
      simp [dictUpdate]
    rw [hstep, ih (dictInsert r k v) htail]
    by_cases hj : k = j
    · subst hj
      have hnone : dictFind c k = none := by
        cases hfc : dictFind c k with
        | none => rfl
        | some w =>
          exact absurd ((dictFind_isSome_iff_mem_keys c k).mp (by simp [hfc])) hknot
      simp [dictFind, hnone, dictFind_insert]
    · have hj2 : ¬ j = k := fun hh => hj hh.symm
      simp [dictFind, hj, hj2, dictFind_insert]

/-! ### Key-value store lemmas -/

theorem storeFind_insert {V : Type} (s : KVStore V) (et k : String) (v : V)
    (et2 j : String) :
    storeFind (storeInsert s et k v) et2 j =
      if et2 = et ∧ j = k then some v else storeFind s et2 j := by
  induction s with
  | nil =>
    by_cases h : et2 = et ∧ j = k
    · obtain ⟨h1, h2⟩ := h
      subst h1; subst h2
      simp [storeInsert, storeFind]
    · have h2 : ¬ (et = et2 ∧ k = j) := fun hh => h ⟨hh.1.symm, hh.2.symm⟩
      simp [storeInsert, storeFind, h, h2]
  | cons p s ih =>
    obtain ⟨⟨et3, k3⟩, v3⟩ := p
    by_cases h3 : et3 = et ∧ k3 = k
    · obtain ⟨he, hk⟩ := h3
      subst he; subst hk
      have hins : storeInsert (((et3, k3), v3) :: s) et3 k3 v = ((et3, k3), v) :: s := by
        simp [storeInsert]
      rw [hins]
      by_cases h : et2 = et3 ∧ j = k3
      · obtain ⟨h1, h2⟩ := h
        subst h1; subst h2
        simp [storeFind]
      · have h2 : ¬ (et3 = et2 ∧ k3 = j) := fun hh => h ⟨hh.1.symm, hh.2.symm⟩
        simp [storeFind, h, h2]
    · have hins : storeInsert (((et3, k3), v3) :: s) et k v
          = ((et3, k3), v3) :: storeInsert s et k v := by
        simp [storeInsert, h3]
      rw [hins]
      by_cases h : et3 = et2 ∧ k3 = j
      · obtain ⟨h1, h2⟩ := h
        subst h1; subst h2
        simp [storeFind, h3]
      · simp [storeFind, h, ih]

theorem storePut_isSome_of_isSome {V : Type} (s : KVStore V) (m : Dict V)
    (et et2 j : String) (h : (storeFind s et2 j).isSome) :
    (storeFind (storePut s m et) et2 j).isSome := by
  induction m generalizing s with
  | nil => simpa [storePut]
  | cons p m ih =>
    obtain ⟨k, v⟩ := p
    have hstep : storePut s ((k, v) :: m) et = storePut (storeInsert s et k v) m et := by
      simp [storePut]
    rw [hstep]
    apply ih
    rw [storeFind_insert]
    by_cases hc : et2 = et ∧ j = k
    · simp [hc]
    · simpa [hc]

theorem storePut_isSome_of_mem {V : Type} (s : KVStore V) (m : Dict V)
    (et j : String) (h : j ∈ dictKeys m) :
    (storeFind (storePut s m et) et j).isSome := by
  induction m generalizing s with
  | nil => simp [dictKeys] at h
  | cons p m ih =>
    obtain ⟨k, v⟩ := p
    have hstep : storePut s ((k, v) :: m) et = storePut (storeInsert s et k v) m et := by
      simp [storePut]
    rw [hstep]
    rcases (by simpa [dictKeys] using h : j = k ∨ j ∈ dictKeys m) with hjk | hjm
    · subst hjk
      apply storePut_isSome_of_isSome
      rw [storeFind_insert]
      simp
    · exact ih (storeInsert s et k v) hjm

theorem storeGet_find {V : Type} (s : KVStore V) (ids : List String) (et j : String) :
    dictFind (storeGet s ids et) j =
      if j ∈ ids ∧ (storeFind s et j).isSome then storeFind s et j else none := by
  have aux : ∀ (ids : List String) (d : Dict V),
      dictFind
        (ids.foldl
          (fun d i =>
            match storeFind s et i with
            | some v => dictInsert d i v
            | none => d)
          d) j =
      if j ∈ ids ∧ (storeFind s et j).isSome then storeFind s et j else dictFind d j := by
    intro ids
    induction ids with
    | nil => intro d; simp
    | cons i ids ih =>
      intro d
      simp only [List.foldl_cons]
      rw [ih]
      by_cases hji : j = i
      · subst hji
        cases hsf : storeFind s et j with
        | some v =>
          by_cases hmem : j ∈ ids
          · simp [hmem, hsf]
          · simp [hmem, hsf, dictFind_insert]
        | none =>
          by_cases hmem : j ∈ ids
          · simp [hmem, hsf]
          · simp [hmem, hsf]
      · have hstep : dictFind
            (match storeFind s et i with
             | some v => dictInsert d i v
             | none => d) j = dictFind d j := by
          cases hsf2 : storeFind s et i with
          | some v => simp [dictFind_insert, hji]
          | none => rfl
        rw [hstep]
        by_cases hc : j ∈ ids ∧ (storeFind s et j).isSome
        · simp [hc, List.mem_cons]
        · have hmc : ¬ ((j = i ∨ j ∈ ids) ∧ (storeFind s et j).isSome = true) := by
            intro hh
            rcases hh.1 with h1 | h1
            · exact hji h1
            · exact hc ⟨h1, hh.2⟩
          simp [hc, hmc]
  have h0 : dictFind ([] : Dict V) j = none := rfl
  rw [storeGet, aux ids ([] : Dict V), h0]

theorem storeGet_keys_nodup {V : Type} (s : KVStore V) (ids : List String) (et : String) :
    (dictKeys (storeGet s ids et)).Nodup := by
  have aux : ∀ (ids : List String) (d : Dict V), (dictKeys d).Nodup →
      (dictKeys
        (ids.foldl
          (fun d i =>
            match storeFind s et i with
            | some v => dictInsert d i v
            | none => d)
          d)).Nodup := by
    intro ids
    induction ids with
    | nil => intro d hd; simpa
    | cons i ids ih =>
      intro d hd
      simp only [List.foldl_cons]
      apply ih
      cases hsf : storeFind s et i with
      | some v => exact dictKeys_insert_nodup d i v hd
      | none => exact hd
  exact aux ids [] (by simp [dictKeys])

theorem storeGet_mem_keys {V : Type} (s : KVStore V) (ids : List String) (et j : String)
    (h : j ∈ dictKeys (storeGet s ids et)) : j ∈ ids := by
  have hs := (dictFind_isSome_iff_mem_keys _ j).mpr h
  rw [storeGet_find] at hs
  by_cases hc : j ∈ ids ∧ (storeFind s et j).isSome
  · exact hc.1
  · simp [hc] at hs

/-! ### Removal-loop (`ids.remove`) lemmas -/

theorem idsAfter_nil_keep (strL : List String) : idsAfter strL [] = strL := rfl

theorem idsAfter_cons (strL : List String) (k : String) (keep : List String) :
    idsAfter strL (k :: keep) = idsAfter (strL.erase k) keep := rfl

theorem mem_idsAfter_of_not_mem (strL keep : List String) (i : String)
    (hmem : i ∈ strL) (hnot : i ∉ keep) : i ∈ idsAfter strL keep := by
  induction keep generalizing strL with
  | nil => simpa [idsAfter_nil_keep]
  | cons k keep ih =>
    rw [idsAfter_cons]
    have hik : i ≠ k := fun hh => hnot (hh ▸ List.mem_cons_self k keep)
    have : i ∈ strL.erase k := (List.mem_erase_of_ne hik).mpr hmem
    exact ih _ this (fun hh => hnot (List.mem_cons_of_mem k hh))

theorem mem_keep_of_idsAfter_nil (strL keep : List String)
    (h : idsAfter strL keep = []) : ∀ i ∈ strL, i ∈ keep := by
  intro i hi
  by_contra hnot
  have := mem_idsAfter_of_not_mem strL keep i hi hnot
  rw [h] at this
  exact absurd this (List.not_mem_nil i)

theorem idsAfter_eq_nil (strL keep : List String)
    (hnd : strL.Nodup) (hall : ∀ i ∈ strL, i ∈ keep) : idsAfter strL keep = [] := by
  induction keep generalizing strL with
  | nil =>
    rw [idsAfter_nil_keep]
    refine List.eq_nil_iff_forall_not_mem.mpr (fun i hi => ?_)
    exact absurd (hall i hi) (List.not_mem_nil i)
  | cons k keep ih =>
    rw [idsAfter_cons]
    apply ih _ (hnd.erase k)
    intro x hx
    have hxk : x ≠ k ∧ x ∈ strL := (hnd.mem_erase_iff).mp hx
    rcases List.mem_cons.mp (hall x hxk.2) with h1 | h1
    · exact absurd h1 hxk.1
    · exact h1

/-! ### Early-path lookup lemmas -/

theorem lookupAll_map_some {V : Type} (d : Dict V) (l : List String) (vs : List V)
    (h : lookupAll d l = some vs) :
    vs.map some = l.map (fun i => dictFind d i) := by
  induction l generalizing vs with
  | nil =>
    simp [lookupAll] at h
    subst h
    simp
  | cons i rest ih =>
    simp only [lookupAll] at h
    cases hf : dictFind d i with
    | none => rw [hf] at h; exact absurd h (by simp)
    | some v =>
      rw [hf] at h
      cases hr : lookupAll d rest with
      | none => rw [hr] at h; exact absurd h (by simp)
      | some ws =>
        rw [hr] at h
        have : vs = v :: ws := by
          simpa using h.symm
        subst this
        simp [hf, ih ws hr]

theorem lookupAll_length {V : Type} (d : Dict V) (l : List String) (vs : List V)
    (h : lookupAll d l = some vs) : vs.length = l.length := by
  have := lookupAll_map_some d l vs h
  have h2 : (vs.map some).length = (l.map (fun i => dictFind d i)).length := by rw [this]
  simpa using h2

theorem lookupAll_isSome {V : Type} (d : Dict V) (l : List String)
    (hall : ∀ i ∈ l, (dictFind d i).isSome) : ∃ vs, lookupAll d l = some vs := by
  induction l with
  | nil => exact ⟨[], rfl⟩
  | cons i rest ih =>
    obtain ⟨ws, hws⟩ := ih (fun x hx => hall x (List.mem_cons_of_mem i hx))
    have hi := hall i (List.mem_cons_self i rest)
    cases hf : dictFind d i with
    | none => rw [hf] at hi; exact absurd hi (by simp)
    | some v => exact ⟨v :: ws, by simp [lookupAll, hf, hws]⟩

/-! ### Call-path characterization -/

theorem strList_list (l : List RawId) : strList (.list l) = l.map normId := rfl

theorem strList_scalar (r : RawId) : strList (.scalar r) = [normId r] := rfl

theorem cachedOf_none {V : Type} (s : KVStore V) (strL : List String) (et : String) :
    cachedOf s strL et none = storeGet s strL et := rfl

theorem cachedOf_some {V : Type} (s : KVStore V) (strL : List String) (et : String)
    (inc : List String) : cachedOf s strL et (some inc) = [] := rfl

theorem get_with_cache_early_eq {V E : Type} (s : KVStore V) (func : FetchFn V E)
    (pid : PyId) (mok : Bool) (et : String) (incl : Option (List String))
    (h : idsAfter (strList pid) (dictKeys (cachedOf s (strList pid) et incl)) = []) :
    get_with_cache s func pid mok et incl
      = earlyResult s (cachedOf s (strList pid) et incl) pid (strList pid)
          (getCallsOf (strList pid) incl) incl := by
  rw [get_with_cache, if_pos h]

theorem get_with_cache_fetch_eq {V E : Type} (s : KVStore V) (func : FetchFn V E)
    (pid : PyId) (mok : Bool) (et : String) (incl : Option (List String))
    (h : ¬ idsAfter (strList pid) (dictKeys (cachedOf s (strList pid) et incl)) = []) :
    get_with_cache s func pid mok et incl
      = afterFetch s (cachedOf s (strList pid) et incl) pid (strList pid)
          (getCallsOf (strList pid) incl) incl
          (payloadOf (strList pid) (cachedOf s (strList pid) et incl) incl)
          (func (payloadOf (strList pid) (cachedOf s (strList pid) et incl) incl))
          mok et := by
  rw [get_with_cache, if_neg h]

theorem idsAfter_ne_nil_of_unresolved {V : Type} (cached : Dict V) (strL : List String)
    (i : String) (hi : i ∈ strL) (hn : dictFind cached i = none) :
    idsAfter strL (dictKeys cached) ≠ [] := by
  intro h
  have hmem := mem_keep_of_idsAfter_nil _ _ h i hi
  have hsome := (dictFind_isSome_iff_mem_keys cached i).mpr hmem
  rw [hn] at hsome
  exact absurd hsome (by simp)

theorem all_cached_of_idsAfter_nil {V : Type} (cached : Dict V) (strL : List String)
    (h : idsAfter strL (dictKeys cached) = []) :
    ∀ i ∈ strL, (dictFind cached i).isSome := by
  intro i hi
  exact (dictFind_isSome_iff_mem_keys cached i).mpr (mem_keep_of_idsAfter_nil _ _ h i hi)

/-- Shared helper: every successful list-shaped return of the embedded call
is the normalized input identity list mapped through a single per-identity
resolution function (hence in input order, duplicates resolved alike). -/
theorem result_ok_list_map {V E : Type} (s : KVStore V) (f : FetchFn V E)
    (l : List RawId) (mok : Bool) (et : String) (incl : Option (List String))
    (out : List (Option V))
    (h : (get_with_cache s f (.list l) mok et incl).result = .ok (.list out)) :
    out.length = l.length ∧ ∃ g : String → Option V, out = (l.map normId).map g := by
  by_cases hc : idsAfter (strList (.list l)) (dictKeys (cachedOf s (strList (.list l)) et incl)) = []
  · rw [get_with_cache_early_eq s f (.list l) mok et incl hc] at h
    cases hla : lookupAll (cachedOf s (strList (.list l)) et incl) (strList (.list l)) with
    | none =>
      simp [earlyResult, hla] at h
    | some vs =>
      simp only [earlyResult, hla] at h
      have hout : vs.map some = out := by
        simpa using h
      have hmap := lookupAll_map_some _ _ _ hla
      constructor
      · have := lookupAll_length _ _ _ hla
        rw [← hout]
        simpa [strList_list] using this
      · refine ⟨fun i => dictFind (cachedOf s (strList (.list l)) et incl) i, ?_⟩
        rw [← hout, hmap]
        rfl
  · rw [get_with_cache_fetch_eq s f (.list l) mok et incl hc] at h
    cases hfr : f (payloadOf (strList (.list l)) (cachedOf s (strList (.list l)) et incl) incl) with
    | error e =>
      rw [hfr] at h
      simp [afterFetch] at h
    | ok p =>
      obtain ⟨r, tc⟩ := p
      rw [hfr] at h
      simp only [afterFetch] at h
      split at h
      · simp at h
      · have hout : (strList (.list l)).map
            (fun i => dictFind (dictUpdate r (cachedOf s (strList (.list l)) et incl)) i) = out := by
          simpa using h
        constructor
        · rw [← hout]
          simp [strList_list]
        · exact ⟨fun i => dictFind (dictUpdate r (cachedOf s (strList (.list l)) et incl)) i,
            by rw [← hout]; rfl⟩

/-! ### Trace projections of the two paths -/

theorem earlyResult_fetchCalls {V E : Type} (s : KVStore V) (cached : Dict V)
    (pid : PyId) (strL : List String) (gc : List (List String))
    (incl : Option (List String)) :
    (earlyResult (E := E) s cached pid strL gc incl).fetchCalls = [] := by
  cases pid with
  | list l => cases h : lookupAll cached strL <;> simp [earlyResult, h]
  | scalar r => cases h : dictFind cached (normId r) <;> simp [earlyResult, h]

theorem earlyResult_store {V E : Type} (s : KVStore V) (cached : Dict V)
    (pid : PyId) (strL : List String) (gc : List (List String))
    (incl : Option (List String)) :
    (earlyResult (E := E) s cached pid strL gc incl).store = s := by
  cases pid with
  | list l => cases h : lookupAll cached strL <;> simp [earlyResult, h]
  | scalar r => cases h : dictFind cached (normId r) <;> simp [earlyResult, h]

theorem earlyResult_getCalls {V E : Type} (s : KVStore V) (cached : Dict V)
    (pid : PyId) (strL : List String) (gc : List (List String))
    (incl : Option (List String)) :
    (earlyResult (E := E) s cached pid strL gc incl).getCalls = gc := by
  cases pid with
  | list l => cases h : lookupAll cached strL <;> simp [earlyResult, h]
  | scalar r => cases h : dictFind cached (normId r) <;> simp [earlyResult, h]

theorem earlyResult_putCalls {V E : Type} (s : KVStore V) (cached : Dict V)
    (pid : PyId) (strL : List String) (gc : List (List String))
    (incl : Option (List String)) :
    (earlyResult (E := E) s cached pid strL gc incl).putCalls = [] := by
  cases pid with
  | list l => cases h : lookupAll cached strL <;> simp [earlyResult, h]
  | scalar r => cases h : dictFind cached (normId r) <;> simp [earlyResult, h]

theorem earlyResult_includeOut {V E : Type} (s : KVStore V) (cached : Dict V)
    (pid : PyId) (strL : List String) (gc : List (List String))
    (incl : Option (List String)) :
    (earlyResult (E := E) s cached pid strL gc incl).includeOut = incl := by
  cases pid with
  | list l => cases h : lookupAll cached strL <;> simp [earlyResult, h]
  | scalar r => cases h : dictFind cached (normId r) <;> simp [earlyResult, h]

theorem afterFetch_fetchCalls {V E : Type} (s : KVStore V) (cached : Dict V)
    (pid : PyId) (strL : List String) (gc : List (List String))
    (incl : Option (List String)) (payload : Payload)
    (fr : Except E (Dict V × Dict V)) (mok : Bool) (et : String) :
    (afterFetch s cached pid strL gc incl payload fr mok et).fetchCalls = [payload] := by
  cases fr with
  | error e => rfl
  | ok p =>
    obtain ⟨r, tc⟩ := p
    simp only [afterFetch]
    split <;> rfl

theorem afterFetch_getCalls {V E : Type} (s : KVStore V) (cached : Dict V)
    (pid : PyId) (strL : List String) (gc : List (List String))
    (incl : Option (List String)) (payload : Payload)
    (fr : Except E (Dict V × Dict V)) (mok : Bool) (et : String) :
    (afterFetch s cached pid strL gc incl payload fr mok et).getCalls = gc := by
  cases fr with
  | error e => rfl
  | ok p =>
    obtain ⟨r, tc⟩ := p
    simp only [afterFetch]
    split <;> rfl

theorem afterFetch_includeOut {V E : Type} (s : KVStore V) (cached : Dict V)
    (pid : PyId) (strL : List String) (gc : List (List String))
    (incl : Option (List String)) (payload : Payload)
    (fr : Except E (Dict V × Dict V)) (mok : Bool) (et : String) :
    (afterFetch s cached pid strL gc incl payload fr mok et).includeOut = inclAdj incl := by
  cases fr with
  | error e => rfl
  | ok p =>
    obtain ⟨r, tc⟩ := p
    simp only [afterFetch]
    split <;> rfl

theorem afterFetch_store_filtered {V E : Type} (s : KVStore V) (cached : Dict V)
    (pid : PyId) (strL : List String) (gc : List (List String))
    (inc : List String) (payload : Payload)
    (fr : Except E (Dict V × Dict V)) (mok : Bool) (et : String) :
    (afterFetch s cached pid strL gc (some inc) payload fr mok et).store = s := by
  cases fr with
  | error e => rfl
  | ok p =>
    obtain ⟨r, tc⟩ := p
    simp only [afterFetch]
    split <;> rfl

theorem afterFetch_putCalls_filtered {V E : Type} (s : KVStore V) (cached : Dict V)
    (pid : PyId) (strL : List String) (gc : List (List String))
    (inc : List String) (payload : Payload)
    (fr : Except E (Dict V × Dict V)) (mok : Bool) (et : String) :
    (afterFetch s cached pid strL gc (some inc) payload fr mok et).putCalls = [] := by
  cases fr with
  | error e => rfl
  | ok p =>
    obtain ⟨r, tc⟩ := p
    simp only [afterFetch]
    split <;> rfl

theorem afterFetch_store_unfiltered {V E : Type} (s : KVStore V) (cached : Dict V)
    (pid : PyId) (strL : List String) (gc : List (List String)) (payload : Payload)
    (r tc : Dict V) (mok : Bool) (et : String) :
    (afterFetch (E := E) s cached pid strL gc none payload (.ok (r, tc)) mok et).store
      = storePut s tc et := by
  simp only [afterFetch]
  split <;> rfl

/-! ### Claim C1: order preservation -/

/-- C1: for every list of requested identities — whether each identity is
served from cache, fetched remotely, or a mix, and including duplicate
identities — `_get_with_cache` returns its results in exactly the order of
the input identity list: the successful output has one slot per input
occurrence and equals the normalized input list mapped positionally through
a single per-identity resolution function. -/
theorem C1_order_preservation {V E : Type} (s : KVStore V) (f : FetchFn V E)
    (l : List RawId) (mok : Bool) (et : String) (incl : Option (List String))
    (out : List (Option V))
    (h : (get_with_cache s f (.list l) mok et incl).result = .ok (.list out)) :
    out.length = l.length ∧ ∃ g : String → Option V, out = (l.map normId).map g :=
  result_ok_list_map s f l mok et incl out h

/-- Witness for C1 at a concrete mixed request: identity "1" is cached,
identity "2" is fetched, and "1" is requested twice, in order [1, 2, 1]. -/
theorem C1_order_preservation_witness :
    ([some "v1", some "v2", some "v1"] : List (Option String)).length
        = [RawId.str "1", RawId.str "2", RawId.str "1"].length
    ∧ ∃ g : String → Option String,
        [some "v1", some "v2", some "v1"]
          = ([RawId.str "1", RawId.str "2", RawId.str "1"].map normId).map g := by
  have h := C1_order_preservation [(("mol", "1"), "v1")]
      ((fun _ => .ok ([("2", "v2")], [("2", "v2")])) : FetchFn String String)
      [RawId.str "1", RawId.str "2", RawId.str "1"] false "mol" none
      [some "v1", some "v2", some "v1"] rfl
  exact h

/-! ### Claim C7: empty identity list (corrected) -/

/-- Counterexample to C7 as stated: for the empty identity list with no
field filter, the code at src/client.py line 192 still invokes the cache
store's `get` (with the empty id list) before returning the empty sequence,
so the claim's "without consulting the cache store" is false even though
the result is indeed the empty sequence. -/
theorem C7_counterexample :
    ((get_with_cache ([] : KVStore String)
        ((fun _ => .error "err") : FetchFn String String)
        (.list []) false "mol" none).result = .ok (.list []))
    ∧ (get_with_cache ([] : KVStore String)
        ((fun _ => .error "err") : FetchFn String String)
        (.list []) false "mol" none).getCalls ≠ [] := by
  exact ⟨rfl, by decide⟩

/-- C7 (amended): for the empty identity list input, `_get_with_cache`
returns the empty sequence immediately without invoking the remote fetch
function and without writing to the store; the cache store's `get` is
invoked once — with the empty identity list (reading no entries) — when no
field filter is supplied. -/
theorem C7_empty_list_request {V E : Type} (s : KVStore V) (f : FetchFn V E)
    (mok : Bool) (et : String) :
    (get_with_cache s f (.list []) mok et none).result = .ok (.list [])
    ∧ (get_with_cache s f (.list []) mok et none).fetchCalls = []
    ∧ (get_with_cache s f (.list []) mok et none).putCalls = []
    ∧ (get_with_cache s f (.list []) mok et none).store = s
    ∧ (get_with_cache s f (.list []) mok et none).getCalls = [[]] :=
  ⟨rfl, rfl, rfl, rfl, rfl⟩

/-! ### Claim C9: single-vs-sequence output shape -/

/-- C9: the single-vs-sequence distinction of the input is preserved in the
output shape: every successful scalar (non-list) request returns a single
entity-or-absent value (not a one-element sequence), and every successful
list request (including a one-element list) returns a list of the same
length as the input. -/
theorem C9_shape_preservation {V E : Type} (s : KVStore V) (f : FetchFn V E)
    (pid : PyId) (mok : Bool) (et : String) (incl : Option (List String))
    (o : PyOut V)
    (h : (get_with_cache s f pid mok et incl).result = .ok o) :
    (∀ r : RawId, pid = .scalar r → ∃ ov : Option V, o = .scalar ov)
    ∧ (∀ l : List RawId, pid = .list l →
        ∃ vs : List (Option V), o = .list vs ∧ vs.length = l.length) := by
  constructor
  · intro r hr
    subst hr
    by_cases hc : idsAfter (strList (.scalar r))
        (dictKeys (cachedOf s (strList (.scalar r)) et incl)) = []
    · rw [get_with_cache_early_eq s f _ mok et incl hc] at h
      cases hfv : dictFind (cachedOf s (strList (.scalar r)) et incl) (normId r) with
      | none => simp [earlyResult, hfv] at h
      | some v =>
        simp only [earlyResult, hfv] at h
        exact ⟨some v, by simpa using h.symm⟩
    · rw [get_with_cache_fetch_eq s f _ mok et incl hc] at h
      cases hfr : f (payloadOf (strList (.scalar r))
          (cachedOf s (strList (.scalar r)) et incl) incl) with
      | error e =>
        rw [hfr] at h
        simp [afterFetch] at h
      | ok p =>
        obtain ⟨rr, tc⟩ := p
        rw [hfr] at h
        simp only [afterFetch] at h
        split at h
        · simp at h
        · exact ⟨dictFind (dictUpdate rr (cachedOf s (strList (.scalar r)) et incl)) (normId r),
            by simpa using h.symm⟩
  · intro l hl
    subst hl
    by_cases hc : idsAfter (strList (.list l))
        (dictKeys (cachedOf s (strList (.list l)) et incl)) = []
    · rw [get_with_cache_early_eq s f _ mok et incl hc] at h
      cases hla : lookupAll (cachedOf s (strList (.list l)) et incl) (strList (.list l)) with
      | none => simp [earlyResult, hla] at h
      | some vs =>
        simp only [earlyResult, hla] at h
        refine ⟨vs.map some, by simpa using h.symm, ?_⟩
        have := lookupAll_length _ _ _ hla
        simpa [strList_list] using this
    · rw [get_with_cache_fetch_eq s f _ mok et incl hc] at h
      cases hfr : f (payloadOf (strList (.list l))
          (cachedOf s (strList (.list l)) et incl) incl) with
      | error e =>
        rw [hfr] at h
        simp [afterFetch] at h
      | ok p =>
        obtain ⟨rr, tc⟩ := p
        rw [hfr] at h
        simp only [afterFetch] at h
        split at h
        · simp at h
        · refine ⟨(strList (.list l)).map
              (fun i => dictFind (dictUpdate rr (cachedOf s (strList (.list l)) et incl)) i),
            by simpa using h.symm, ?_⟩
          simp [strList_list]

/-- Witness for C9 at concrete inputs: the scalar request 1 returns a bare
value (wrapped in the absent-marker option), while the one-element list
request [1] returns a one-element list. -/
theorem C9_shape_preservation_witness :
    (∃ ov : Option String, PyOut.scalar (some "v") = PyOut.scalar ov)
    ∧ (∃ vs : List (Option String),
        PyOut.list [some "v"] = PyOut.list vs ∧ vs.length = [RawId.num 1].length) := by
  constructor
  · exact (C9_shape_preservation [(("mol", "1"), "v")]
      ((fun _ => .error "err") : FetchFn String String)
      (.scalar (.num 1)) false "mol" none (.scalar (some "v")) rfl).1 (.num 1) rfl
  · exact (C9_shape_preservation [(("mol", "1"), "v")]
      ((fun _ => .error "err") : FetchFn String String)
      (.list [.num 1]) false "mol" none (.list [some "v"]) rfl).2 [.num 1] rfl

/-! ### Claim C8: at most one remote fetch; errors propagate -/

/-- C8: in every invocation, the remote fetch function is invoked at most
once — exactly once whenever some requested identity is not served from
cache — and an error raised by the remote fetch propagates to the caller
carrying the original error value, not caught, transformed, or retried. -/
theorem C8_single_fetch_error_propagation {V E : Type} (s : KVStore V)
    (f : FetchFn V E) (pid : PyId) (mok : Bool) (et : String)
    (incl : Option (List String)) :
    (get_with_cache s f pid mok et incl).fetchCalls.length ≤ 1
    ∧ ((∃ i ∈ strList pid, dictFind (cachedOf s (strList pid) et incl) i = none) →
        (get_with_cache s f pid mok et incl).fetchCalls.length = 1)
    ∧ (∀ e : E,
        (∃ i ∈ strList pid, dictFind (cachedOf s (strList pid) et incl) i = none) →
        f (payloadOf (strList pid) (cachedOf s (strList pid) et incl) incl) = .error e →
        (get_with_cache s f pid mok et incl).result = .error (.fetchError e)) := by
  by_cases hc : idsAfter (strList pid) (dictKeys (cachedOf s (strList pid) et incl)) = []
  · rw [get_with_cache_early_eq s f pid mok et incl hc]
    refine ⟨by rw [earlyResult_fetchCalls]; simp, ?_, ?_⟩
    · rintro ⟨i, hi, hn⟩
      exact absurd hc (idsAfter_ne_nil_of_unresolved _ _ i hi hn)
    · rintro e ⟨i, hi, hn⟩ _
      exact absurd hc (idsAfter_ne_nil_of_unresolved _ _ i hi hn)
  · rw [get_with_cache_fetch_eq s f pid mok et incl hc]
    refine ⟨by rw [afterFetch_fetchCalls]; exact Nat.le_refl 1,
      fun _ => by rw [afterFetch_fetchCalls]; rfl, ?_⟩
    intro e _ hfe
    rw [hfe]
    rfl

/-- Witness for C8 at a concrete input: one uncached identity forces
exactly one fetch, and the injected fetch function's error "boom" comes
back to the caller unchanged. -/
theorem C8_single_fetch_error_propagation_witness :
    (get_with_cache ([] : KVStore String)
        ((fun _ => .error "boom") : FetchFn String String)
        (.list [.str "1"]) false "mol" none).fetchCalls.length = 1
    ∧ (get_with_cache ([] : KVStore String)
        ((fun _ => .error "boom") : FetchFn String String)
        (.list [.str "1"]) false "mol" none).result = .error (.fetchError "boom") := by
  have h := C8_single_fetch_error_propagation ([] : KVStore String)
      ((fun _ => .error "boom") : FetchFn String String)
      (.list [.str "1"]) false "mol" none
  refine ⟨h.2.1 ⟨"1", by decide, rfl⟩, h.2.2 "boom" ⟨"1", by decide, rfl⟩ rfl⟩

/-! ### Claim C2: missing-identity semantics -/

/-- C2: when at least one requested identity is resolved by neither the
cache nor the remote fetch, the call with `missing_ok = false` fails with
the synthesized not-found error whose payload names every such missing
identity (not just the first), while the call with `missing_ok = true`
succeeds and fills each unresolved identity's output slot, positionally,
with the explicit absent marker `none` rather than omitting it. -/
theorem C2_missing_identity_handling {V E : Type} (s : KVStore V) (f : FetchFn V E)
    (l : List RawId) (et : String) (r tc : Dict V)
    (hf : f (payloadOf (strList (.list l)) (cachedOf s (strList (.list l)) et none) none)
        = .ok (r, tc))
    (hne : ∃ i ∈ strList (.list l),
        dictFind (cachedOf s (strList (.list l)) et none) i = none ∧ dictFind r i = none) :
    (∃ m : List String,
        (get_with_cache s f (.list l) false et none).result = .error (.notFound m)
        ∧ ∀ i ∈ strList (.list l),
            dictFind (cachedOf s (strList (.list l)) et none) i = none →
            dictFind r i = none → i ∈ m)
    ∧ (∃ out : List (Option V),
        (get_with_cache s f (.list l) true et none).result = .ok (.list out)
        ∧ out.length = l.length
        ∧ ∀ j : Nat, ∀ hj : j < (strList (.list l)).length, ∀ hjo : j < out.length,
            dictFind (cachedOf s (strList (.list l)) et none)
              ((strList (.list l)).get ⟨j, hj⟩) = none →
            dictFind r ((strList (.list l)).get ⟨j, hj⟩) = none →
            out.get ⟨j, hjo⟩ = none) := by
  obtain ⟨i0, hi0, hci0, hri0⟩ := hne
  have hc : ¬ idsAfter (strList (.list l))
      (dictKeys (cachedOf s (strList (.list l)) et none)) = [] :=
    idsAfter_ne_nil_of_unresolved _ _ i0 hi0 hci0
  have hnodup : (dictKeys (cachedOf s (strList (.list l)) et none)).Nodup := by
    rw [cachedOf_none]
    exact storeGet_keys_nodup s _ et
  have hres : ∀ i, dictFind (cachedOf s (strList (.list l)) et none) i = none →
      dictFind r i = none →
      dictFind (dictUpdate r (cachedOf s (strList (.list l)) et none)) i = none := by
    intro i h1 h2
    rw [dictFind_update r _ i hnodup]
    simp [h1, h2]
  have hmiss0 : i0 ∈ (strList (.list l)).filter
      (fun i => (dictFind (dictUpdate r (cachedOf s (strList (.list l)) et none)) i).isNone) :=
    List.mem_filter.mpr ⟨hi0, by simp [hres i0 hci0 hri0]⟩
  have hmissne : ((strList (.list l)).filter
      (fun i => (dictFind (dictUpdate r (cachedOf s (strList (.list l)) et none)) i).isNone)).dedup
      ≠ [] := by
    intro hnil
    have hmem := List.mem_dedup.mpr hmiss0
    rw [hnil] at hmem
    exact absurd hmem (List.not_mem_nil i0)
  constructor
  · rw [get_with_cache_fetch_eq s f (.list l) false et none hc, hf]
    simp only [afterFetch]
    rw [if_pos ⟨hmissne, trivial⟩]
    refine ⟨_, rfl, ?_⟩
    intro i hi h1 h2
    exact List.mem_dedup.mpr (List.mem_filter.mpr ⟨hi, by simp [hres i h1 h2]⟩)
  · rw [get_with_cache_fetch_eq s f (.list l) true et none hc, hf]
    simp only [afterFetch]
    rw [if_neg (by simp)]
    refine ⟨_, rfl, by simp [strList_list], ?_⟩
    intro j hj hjo h1 h2
    have hget : ((strList (.list l)).map
        (fun i => dictFind (dictUpdate r (cachedOf s (strList (.list l)) et none)) i)).get ⟨j, hjo⟩
        = dictFind (dictUpdate r (cachedOf s (strList (.list l)) et none))
            ((strList (.list l)).get ⟨j, hj⟩) := by
      simp
    rw [hget]
    exact hres _ h1 h2

/-- Witness for C2 at the spec's own example (section 8): ids [1, 2, 3]
where only 1 is cached and the remote resolves only 3, so identity 2 is
missing; `missing_ok = false` raises naming 2, `missing_ok = true` returns
a 3-slot list whose middle slot is the absent marker. -/
theorem C2_missing_identity_handling_witness :
    (∃ m : List String,
        (get_with_cache [(("mol", "1"), "v1")]
          ((fun _ => .ok ([("3", "v3")], [("3", "v3")])) : FetchFn String String)
          (.list [.str "1", .str "2", .str "3"]) false "mol" none).result
          = .error (.notFound m)
        ∧ "2" ∈ m)
    ∧ (∃ out : List (Option String),
        (get_with_cache [(("mol", "1"), "v1")]
          ((fun _ => .ok ([("3", "v3")], [("3", "v3")])) : FetchFn String String)
          (.list [.str "1", .str "2", .str "3"]) true "mol" none).result
          = .ok (.list out)
        ∧ out.length = 3
        ∧ ∀ hjo : 1 < out.length, out.get ⟨1, hjo⟩ = none) := by
  have h := C2_missing_identity_handling [(("mol", "1"), "v1")]
      ((fun _ => .ok ([("3", "v3")], [("3", "v3")])) : FetchFn String String)
      [.str "1", .str "2", .str "3"] "mol" [("3", "v3")] [("3", "v3")]
      rfl ⟨"2", by decide, rfl, rfl⟩
  obtain ⟨⟨m, hm, hmm⟩, ⟨out, hout, hlen, hidx⟩⟩ := h
  refine ⟨⟨m, hm, hmm "2" (by decide) rfl rfl⟩, ⟨out, hout, hlen, ?_⟩⟩
  intro hjo
  exact hidx 1 (by decide) hjo rfl rfl

/-! ### Claim C10: in-place mutation of the include argument (corrected) -/

/-- Counterexample to C10 as stated: for the empty identity list the early
return at src/client.py line 200 fires before the append at line 213, so a
field filter without "ids" is returned to the caller unchanged — it is not
mutated on every call. -/
theorem C10_counterexample :
    (get_with_cache ([] : KVStore String)
        ((fun _ => .error "err") : FetchFn String String)
        (.list []) false "mol" (some ["x"])).includeOut = some ["x"]
    ∧ (get_with_cache ([] : KVStore String)
        ((fun _ => .error "err") : FetchFn String String)
        (.list []) false "mol" (some ["x"])).includeOut ≠ some (["x"] ++ ["ids"]) := by
  exact ⟨rfl, by decide⟩

/-- C10 (amended): whenever at least one identity is requested (so the
remote-fetch path is reached) and the supplied field filter does not
contain "ids", `_get_with_cache` appends "ids" to the caller's include
list in place — a side effect visible to the caller after the call. -/
theorem C10_include_mutation {V E : Type} (s : KVStore V) (f : FetchFn V E)
    (pid : PyId) (mok : Bool) (et : String) (inc : List String)
    (hne : strList pid ≠ []) (hni : "ids" ∉ inc) :
    (get_with_cache s f pid mok et (some inc)).includeOut = some (inc ++ ["ids"]) := by
  have hc : ¬ idsAfter (strList pid)
      (dictKeys (cachedOf s (strList pid) et (some inc))) = [] := by
    rw [cachedOf_some]
    simpa [idsAfter_nil_keep, dictKeys] using hne
  rw [get_with_cache_fetch_eq s f pid mok et (some inc) hc, afterFetch_includeOut]
  simp [inclAdj, hni]

/-- Witness for C10 at a concrete input: requesting identity "1" with the
filter ["x"] leaves the caller's filter as ["x", "ids"] after the call. -/
theorem C10_include_mutation_witness :
    (get_with_cache ([] : KVStore String)
        ((fun _ => .error "err") : FetchFn String String)
        (.list [.str "1"]) false "mol" (some ["x"])).includeOut
      = some (["x"] ++ ["ids"]) :=
  C10_include_mutation ([] : KVStore String)
    ((fun _ => .error "err") : FetchFn String String)
    (.list [.str "1"]) false "mol" ["x"] (by decide) (by decide)

/-! ### Claim C4: field filter bypasses the cache store (corrected) -/

/-- Counterexample to C4 as stated: with a field filter supplied but an
empty identity list, the early return at src/client.py line 200 fires and
the remote fetch function is never invoked, contradicting the claim's
"the remote fetch function is always invoked". -/
theorem C4_counterexample :
    (get_with_cache ([] : KVStore String)
        ((fun _ => .error "err") : FetchFn String String)
        (.list []) false "mol" (some ["x"])).fetchCalls = [] := by decide

/-- C4 (amended): when a field filter is supplied the cache store is
bypassed entirely — the store's `get` is never invoked, nothing is written
to the store and its contents are unchanged — and whenever at least one
identity is requested the remote fetch function is invoked (exactly once)
even if every identity is cached. -/
theorem C4_filter_bypasses_store {V E : Type} (s : KVStore V) (f : FetchFn V E)
    (pid : PyId) (mok : Bool) (et : String) (inc : List String) :
    (get_with_cache s f pid mok et (some inc)).getCalls = []
    ∧ (get_with_cache s f pid mok et (some inc)).putCalls = []
    ∧ (get_with_cache s f pid mok et (some inc)).store = s
    ∧ (strList pid ≠ [] →
        (get_with_cache s f pid mok et (some inc)).fetchCalls.length = 1) := by
  by_cases hc : idsAfter (strList pid) (dictKeys (cachedOf s (strList pid) et (some inc))) = []
  · rw [get_with_cache_early_eq s f pid mok et (some inc) hc]
    refine ⟨by rw [earlyResult_getCalls]; rfl, by rw [earlyResult_putCalls],
      by rw [earlyResult_store], ?_⟩
    intro hne
    exfalso
    apply hne
    have h2 := hc
    rw [cachedOf_some] at h2
    simpa [idsAfter_nil_keep, dictKeys] using h2
  · rw [get_with_cache_fetch_eq s f pid mok et (some inc) hc]
    exact ⟨by rw [afterFetch_getCalls]; rfl, by rw [afterFetch_putCalls_filtered],
      by rw [afterFetch_store_filtered], fun _ => by rw [afterFetch_fetchCalls]; rfl⟩

/-- Witness for C4 at the interesting instance: identity "1" is already
cached, yet the field filter forces a remote fetch, with no store read and
no store write. -/
theorem C4_filter_bypasses_store_witness :
    (get_with_cache [(("mol", "1"), "v")]
        ((fun p => .ok (p.ids.map (fun i => (i, "w")), p.ids.map (fun i => (i, "w"))))
          : FetchFn String String)
        (.list [.str "1"]) false "mol" (some ["x"])).getCalls = []
    ∧ (get_with_cache [(("mol", "1"), "v")]
        ((fun p => .ok (p.ids.map (fun i => (i, "w")), p.ids.map (fun i => (i, "w"))))
          : FetchFn String String)
        (.list [.str "1"]) false "mol" (some ["x"])).putCalls = []
    ∧ (get_with_cache [(("mol", "1"), "v")]
        ((fun p => .ok (p.ids.map (fun i => (i, "w")), p.ids.map (fun i => (i, "w"))))
          : FetchFn String String)
        (.list [.str "1"]) false "mol" (some ["x"])).store = [(("mol", "1"), "v")]
    ∧ (get_with_cache [(("mol", "1"), "v")]
        ((fun p => .ok (p.ids.map (fun i => (i, "w")), p.ids.map (fun i => (i, "w"))))
          : FetchFn String String)
        (.list [.str "1"]) false "mol" (some ["x"])).fetchCalls.length = 1 := by
  have h := C4_filter_bypasses_store [(("mol", "1"), "v")]
      ((fun p => .ok (p.ids.map (fun i => (i, "w")), p.ids.map (fun i => (i, "w"))))
        : FetchFn String String)
      (.list [.str "1"]) false "mol" ["x"]
  exact ⟨h.1, h.2.1, h.2.2.1, h.2.2.2 (by decide)⟩

/-! ### Claim C3: zero remote calls on full cache hit (corrected) -/

/-- Counterexample to C3 as stated: with the request [1, 1] and identity
"1" present in the store, every requested identity is cached, yet the
removal loop at src/client.py lines 196-197 deletes only one occurrence
per cached key, so `ids` is left non-empty and a remote fetch is issued. -/
theorem C3_counterexample :
    (∀ i ∈ strList (.list [RawId.str "1", RawId.str "1"]),
        (storeFind ([(("mol", "1"), "v")] : KVStore String) "mol" i).isSome)
    ∧ (get_with_cache [(("mol", "1"), "v")]
        ((fun p => .ok (p.ids.map (fun i => (i, "w")), p.ids.map (fun i => (i, "w"))))
          : FetchFn String String)
        (.list [.str "1", .str "1"]) true "mol" none).fetchCalls ≠ [] := by
  exact ⟨by decide, by decide⟩

/-- C3 (amended): for a duplicate-free request with no field filter in
which every requested identity is present in the cache store, the remote
fetch function is never invoked and the cached values are returned directly
in the requested order. -/
theorem C3_full_cache_hit_no_fetch {V E : Type} (s : KVStore V) (f : FetchFn V E)
    (l : List RawId) (mok : Bool) (et : String)
    (hnd : (strList (.list l)).Nodup)
    (hall : ∀ i ∈ strList (.list l), (storeFind s et i).isSome) :
    (get_with_cache s f (.list l) mok et none).fetchCalls = []
    ∧ (get_with_cache s f (.list l) mok et none).result
      = .ok (.list ((strList (.list l)).map
          (fun i => dictFind (storeGet s (strList (.list l)) et) i))) := by
  have hcachedSome : ∀ i ∈ strList (.list l),
      (dictFind (cachedOf s (strList (.list l)) et none) i).isSome := by
    intro i hi
    rw [cachedOf_none, storeGet_find, if_pos ⟨hi, hall i hi⟩]
    exact hall i hi
  have hc : idsAfter (strList (.list l))
      (dictKeys (cachedOf s (strList (.list l)) et none)) = [] :=
    idsAfter_eq_nil _ _ hnd
      (fun i hi => (dictFind_isSome_iff_mem_keys _ i).mp (hcachedSome i hi))
  rw [get_with_cache_early_eq s f (.list l) mok et none hc]
  constructor
  · rw [earlyResult_fetchCalls]
  · obtain ⟨vs, hvs⟩ := lookupAll_isSome _ _ hcachedSome
    simp only [earlyResult, hvs]
    have hmap := lookupAll_map_some _ _ _ hvs
    rw [cachedOf_none] at hmap
    rw [← hmap]

/-- Witness for C3 (amended) at a concrete full cache hit: the request [1]
with "1" stored returns the cached value with zero fetches. -/
theorem C3_full_cache_hit_no_fetch_witness :
    (get_with_cache [(("mol", "1"), "v")]
        ((fun _ => .error "err") : FetchFn String String)
        (.list [.str "1"]) false "mol" none).fetchCalls = []
    ∧ (get_with_cache [(("mol", "1"), "v")]
        ((fun _ => .error "err") : FetchFn String String)
        (.list [.str "1"]) false "mol" none).result = .ok (.list [some "v"]) := by
  have h := C3_full_cache_hit_no_fetch [(("mol", "1"), "v")]
      ((fun _ => .error "err") : FetchFn String String)
      [.str "1"] false "mol" (by decide) (by decide)
  exact ⟨h.1, h.2⟩

/-! ### Claim C5: duplicate identities in the request (corrected) -/

/-- Counterexample to C5 as stated: for the uncached request [1, 1, 2] the
single fetch payload is ["1", "1", "2"] — identity "1" is listed twice —
contradicting the claim that the payload covers only the unique identities
not found in cache and never lists an identity twice. -/
theorem C5_counterexample :
    ((get_with_cache ([] : KVStore String)
        ((fun p => .ok (p.ids.map (fun i => (i, "w")), p.ids.map (fun i => (i, "w"))))
          : FetchFn String String)
        (.list [.str "1", .str "1", .str "2"]) true "mol" none).fetchCalls.map
        Payload.ids)
      = [["1", "1", "2"]]
    ∧ ¬ (["1", "1", "2"] : List String).Nodup := by
  exact ⟨by decide, by decide⟩

/-- C5 (amended): a request with duplicates triggers exactly one remote
fetch; its payload is the normalized input list with one occurrence of
each cache-hit identity removed (so duplicate occurrences may re-appear in
the payload), and the successful output has one slot per input occurrence,
each positionally mapped to its input position through one per-identity
resolution function. -/
theorem C5_duplicate_request_handling {V E : Type} (s : KVStore V) (f : FetchFn V E)
    (l : List RawId) (mok : Bool) (et : String)
    (hne : idsAfter (strList (.list l)) (dictKeys (storeGet s (strList (.list l)) et)) ≠ []) :
    (get_with_cache s f (.list l) mok et none).fetchCalls
      = [⟨idsAfter (strList (.list l)) (dictKeys (storeGet s (strList (.list l)) et)), none⟩]
    ∧ ∀ out : List (Option V),
        (get_with_cache s f (.list l) mok et none).result = .ok (.list out) →
        out.length = l.length ∧ ∃ g : String → Option V, out = (l.map normId).map g := by
  have hc : ¬ idsAfter (strList (.list l))
      (dictKeys (cachedOf s (strList (.list l)) et none)) = [] := by
    rw [cachedOf_none]
    exact hne
  constructor
  · rw [get_with_cache_fetch_eq s f (.list l) mok et none hc, afterFetch_fetchCalls]
    rfl
  · intro out hout
    exact result_ok_list_map s f l mok et none out hout

/-- Witness for C5 (amended) at the spec's example: request [1, 1, 2] with
"1" cached issues one fetch with payload ids ["1", "2"] and returns the
three-slot output [v1, v1, v2] in input order. -/
theorem C5_duplicate_request_handling_witness :
    (get_with_cache [(("mol", "1"), "v1")]
        ((fun p => .ok (p.ids.map (fun i => (i, "v2")), p.ids.map (fun i => (i, "v2"))))
          : FetchFn String String)
        (.list [.str "1", .str "1", .str "2"]) true "mol" none).fetchCalls
      = [⟨["1", "2"], none⟩]
    ∧ (([some "v1", some "v1", some "v2"] : List (Option String)).length = 3
        ∧ ∃ g : String → Option String,
            [some "v1", some "v1", some "v2"] = (["1", "1", "2"] : List String).map g) := by
  have h := C5_duplicate_request_handling [(("mol", "1"), "v1")]
      ((fun p => .ok (p.ids.map (fun i => (i, "v2")), p.ids.map (fun i => (i, "v2"))))
        : FetchFn String String)
      [.str "1", .str "1", .str "2"] true "mol" (by decide)
  exact ⟨h.1, h.2 [some "v1", some "v1", some "v2"] rfl⟩

/-! ### Claim C6: repeated call is served from cache (corrected) -/

/-- Helper for concrete fetch functions that map every requested id to a
fixed value: looking up a requested id in the produced dict succeeds. -/
theorem dictFind_map_self {V : Type} (ids : List String) (i : String) (c : V)
    (h : i ∈ ids) : dictFind (ids.map (fun j => (j, c))) i = some c := by
  induction ids with
  | nil => simp at h
  | cons k ids ih =>
    rcases List.mem_cons.mp h with h1 | h1
    · subst h1
      simp [dictFind]
    · by_cases hk : k = i
      · subst hk
        simp [dictFind]
      · simp [dictFind, hk, ih h1]

/-- Counterexample to C6 as stated: calling twice with the same identity
list [1, 1] (same kind, no filter) against a remote that resolves and
caches everything still issues two remote fetches in total, because the
removal loop deletes only one occurrence of the cached key "1" on the
second call, leaving `ids` non-empty. -/
theorem C6_counterexample :
    (get_with_cache
        (get_with_cache ([] : KVStore String)
          ((fun p => .ok (p.ids.map (fun j => (j, "v")), p.ids.map (fun j => (j, "v"))))
            : FetchFn String String)
          (.list [.str "1", .str "1"]) true "mol" none).store
        ((fun p => .ok (p.ids.map (fun j => (j, "v")), p.ids.map (fun j => (j, "v"))))
          : FetchFn String String)
        (.list [.str "1", .str "1"]) true "mol" none).fetchCalls.length
    + (get_with_cache ([] : KVStore String)
        ((fun p => .ok (p.ids.map (fun j => (j, "v")), p.ids.map (fun j => (j, "v"))))
          : FetchFn String String)
        (.list [.str "1", .str "1"]) true "mol" none).fetchCalls.length = 2 := by
  decide

/-- C6 (amended): for a duplicate-free identity list and a remote fetch
that returns every requested identity and marks it cacheable, calling
`_get_with_cache` twice in a row with the same list, kind, and no filter
issues at most one remote fetch in total — exactly one when some identity
is initially uncached: the first call writes every requested identity into
the store, and the second call is served entirely from cache with zero
remote invocations. -/
theorem C6_repeat_call_uses_cache {V E : Type} (s : KVStore V) (f : FetchFn V E)
    (l : List RawId) (mok : Bool) (et : String)
    (hnd : (strList (.list l)).Nodup)
    (hf : ∀ p : Payload, ∃ r tc : Dict V,
        f p = .ok (r, tc)
        ∧ ∀ i ∈ p.ids, ∃ v : V, dictFind r i = some v ∧ dictFind tc i = some v) :
    (get_with_cache (get_with_cache s f (.list l) mok et none).store f
        (.list l) mok et none).fetchCalls = []
    ∧ (∀ i ∈ strList (.list l),
        (storeFind (get_with_cache s f (.list l) mok et none).store et i).isSome)
    ∧ (get_with_cache s f (.list l) mok et none).fetchCalls.length ≤ 1
    ∧ ((∃ i ∈ strList (.list l), storeFind s et i = none) →
        (get_with_cache s f (.list l) mok et none).fetchCalls.length = 1) := by
  have hcov : ∀ i ∈ strList (.list l),
      (storeFind (get_with_cache s f (.list l) mok et none).store et i).isSome := by
    intro i hi
    by_cases hc1 : idsAfter (strList (.list l))
        (dictKeys (cachedOf s (strList (.list l)) et none)) = []
    · rw [get_with_cache_early_eq s f (.list l) mok et none hc1, earlyResult_store]
      have h1 := all_cached_of_idsAfter_nil _ _ hc1 i hi
      rw [cachedOf_none, storeGet_find] at h1
      by_cases hcond : i ∈ strList (.list l) ∧ (storeFind s et i).isSome
      · exact hcond.2
      · rw [if_neg hcond] at h1
        exact absurd h1 (by simp)
    · obtain ⟨r, tc, hfr, hcv⟩ := hf (payloadOf (strList (.list l))
        (cachedOf s (strList (.list l)) et none) none)
      rw [get_with_cache_fetch_eq s f (.list l) mok et none hc1, hfr,
        afterFetch_store_unfiltered]
      by_cases hic : (dictFind (cachedOf s (strList (.list l)) et none) i).isSome
      · have h2 := hic
        rw [cachedOf_none, storeGet_find] at h2
        by_cases hcond : i ∈ strList (.list l) ∧ (storeFind s et i).isSome
        · exact storePut_isSome_of_isSome s tc et et i hcond.2
        · rw [if_neg hcond] at h2
          exact absurd h2 (by simp)
      · have hnotmem : i ∉ dictKeys (cachedOf s (strList (.list l)) et none) :=
          fun hm => hic ((dictFind_isSome_iff_mem_keys _ i).mpr hm)
        have hmem : i ∈ (payloadOf (strList (.list l))
            (cachedOf s (strList (.list l)) et none) none).ids :=
          mem_idsAfter_of_not_mem _ _ i hi hnotmem
        obtain ⟨v, hrv, htv⟩ := hcv i hmem
        exact storePut_isSome_of_mem s tc et i
          ((dictFind_isSome_iff_mem_keys tc i).mp (by simp [htv]))
  refine ⟨?_, hcov, ?_, ?_⟩
  · have hcached2 : ∀ i ∈ strList (.list l),
        i ∈ dictKeys (cachedOf (get_with_cache s f (.list l) mok et none).store
            (strList (.list l)) et none) := by
      intro i hi
      apply (dictFind_isSome_iff_mem_keys _ i).mp
      rw [cachedOf_none, storeGet_find, if_pos ⟨hi, hcov i hi⟩]
      exact hcov i hi
    have hc2 : idsAfter (strList (.list l))
        (dictKeys (cachedOf (get_with_cache s f (.list l) mok et none).store
          (strList (.list l)) et none)) = [] :=
      idsAfter_eq_nil _ _ hnd hcached2
    rw [get_with_cache_early_eq _ f (.list l) mok et none hc2, earlyResult_fetchCalls]
  · by_cases hc1 : idsAfter (strList (.list l))
        (dictKeys (cachedOf s (strList (.list l)) et none)) = []
    · rw [get_with_cache_early_eq s f (.list l) mok et none hc1, earlyResult_fetchCalls]
      simp
    · rw [get_with_cache_fetch_eq s f (.list l) mok et none hc1, afterFetch_fetchCalls]
      exact Nat.le_refl 1
  · rintro ⟨i, hi, hn⟩
    have hc1 : ¬ idsAfter (strList (.list l))
        (dictKeys (cachedOf s (strList (.list l)) et none)) = [] := by
      apply idsAfter_ne_nil_of_unresolved _ _ i hi
      rw [cachedOf_none, storeGet_find, if_neg]
      intro hcond
      rw [hn] at hcond
      exact absurd hcond.2 (by simp)
    rw [get_with_cache_fetch_eq s f (.list l) mok et none hc1, afterFetch_fetchCalls]
    rfl

/-- Witness for C6 (amended) at the spec's example: resolve([1, 2]) twice
from an empty store against an ideal remote issues one fetch on the first
call and zero on the second. -/
theorem C6_repeat_call_uses_cache_witness :
    (get_with_cache
        (get_with_cache ([] : KVStore String)
          ((fun p => .ok (p.ids.map (fun j => (j, "v")), p.ids.map (fun j => (j, "v"))))
            : FetchFn String String)
          (.list [.str "1", .str "2"]) true "mol" none).store
        ((fun p => .ok (p.ids.map (fun j => (j, "v")), p.ids.map (fun j => (j, "v"))))
          : FetchFn String String)
        (.list [.str "1", .str "2"]) true "mol" none).fetchCalls = []
    ∧ (get_with_cache ([] : KVStore String)
        ((fun p => .ok (p.ids.map (fun j => (j, "v")), p.ids.map (fun j => (j, "v"))))
          : FetchFn String String)
        (.list [.str "1", .str "2"]) true "mol" none).fetchCalls.length = 1 := by
  have h := C6_repeat_call_uses_cache ([] : KVStore String)
      ((fun p => .ok (p.ids.map (fun j => (j, "v")), p.ids.map (fun j => (j, "v"))))
        : FetchFn String String)
      [.str "1", .str "2"] true "mol" (by decide)
      (fun p => ⟨p.ids.map (fun j => (j, "v")), p.ids.map (fun j => (j, "v")), rfl,
        fun i hi => ⟨"v", dictFind_map_self p.ids i "v" hi, dictFind_map_self p.ids i "v" hi⟩⟩)
  exact ⟨h.1, h.2.2.2 ⟨"1", by decide, rfl⟩⟩
